import Mathlib

/-!
Verification of the PNaCl translation coordinator
(`PnaclCoordinator`, native_client trusted plugin glue).

The definitions below are a shallow embedding of the coordinator's
control flow.  PPAPI error codes are `Int` values as in
`ppapi/c/pp_errors.h`; each coordinator callback is embedded as a pure
function from its inputs (the completion `pp_error` and the relevant
coordinator fields) to the updated fields together with the list of
externally visible actions it performs, in program order.
-/

namespace Pnacl

/-! ### PPAPI error codes (values from ppapi/c/pp_errors.h) -/

def PP_OK : Int := 0
def PP_ERROR_FAILED : Int := -2
def PP_ERROR_ABORTED : Int := -3
def PP_ERROR_NOACCESS : Int := -7
def PP_ERROR_NOSPACE : Int := -9
def PP_ERROR_NOQUOTA : Int := -10
def PP_ERROR_INPROGRESS : Int := -11
def PP_ERROR_FILENOTFOUND : Int := -20
def PP_ERROR_FILEEXISTS : Int := -21
def PP_ERROR_NOTAFILE : Int := -24

/-! ### Plugin error codes used by the coordinator (plugin_error.h names) -/

inductive ErrCode where
  | ERROR_PNACL_CACHE_OPEN_INPROGRESS
  | ERROR_PNACL_CACHE_OPEN_NOACCESS
  | ERROR_PNACL_CACHE_OPEN_NOQUOTA
  | ERROR_PNACL_CACHE_OPEN_NOSPACE
  | ERROR_PNACL_CACHE_OPEN_OTHER
  | ERROR_PNACL_CACHE_DIRECTORY_CREATE
  | ERROR_PNACL_CACHE_FILEOPEN_NOACCESS
  | ERROR_PNACL_CACHE_FILEOPEN_NOQUOTA
  | ERROR_PNACL_CACHE_FILEOPEN_NOSPACE
  | ERROR_PNACL_CACHE_FILEOPEN_NOTAFILE
  | ERROR_PNACL_CACHE_FILEOPEN_OTHER
  | ERROR_PNACL_CACHE_FINALIZE_COPY_NOQUOTA
  | ERROR_PNACL_CACHE_FINALIZE_COPY_NOSPACE
  | ERROR_PNACL_CACHE_FINALIZE_COPY_OTHER
  | ERROR_PNACL_CACHE_FINALIZE_RENAME_NOACCESS
  | ERROR_PNACL_CACHE_FINALIZE_RENAME_OTHER
  | ERROR_PNACL_CACHE_FETCH_NOTFOUND
  | ERROR_PNACL_CACHE_FETCH_NOACCESS
  | ERROR_PNACL_CACHE_FETCH_OTHER
  deriving DecidableEq, Repr

/-- A `ReportPpapiError` / `error_info_.SetReport` payload: the plugin error
category together with the triggering `pp_error`. -/
structure ErrorReport where
  code : ErrCode
  pp_error : Int
  deriving DecidableEq, Repr

/-! ### `PnaclCoordinator::ExitWithError` — the error latch (claim C1)

`ExitWithError` always logs and reports the load error
(`plugin_->ReportLoadError`) and cancels the factory callbacks
(`callback_factory_.CancelAll()`), but runs the caller's completion
callback `translate_notify_callback_` only if `error_already_reported_`
is still false, setting the flag. -/

structure ExitState where
  error_already_reported : Bool
  deriving DecidableEq, Repr

inductive ExitAct where
  | reportLoadError
  | cancelAll
  | notifyFailed       -- translate_notify_callback_.Run(PP_ERROR_FAILED)
  deriving DecidableEq, Repr

def exitWithError (s : ExitState) : ExitState × List ExitAct :=
  if !s.error_already_reported then
    ({ error_already_reported := true },
     [ExitAct.reportLoadError, ExitAct.cancelAll, ExitAct.notifyFailed])
  else
    (s, [ExitAct.reportLoadError, ExitAct.cancelAll])

/-- The concatenated actions of `n` successive calls to `ExitWithError`
(successive racing failures all funnel into this function on the owning
event loop). -/
def exitWithErrorTrace : ExitState → Nat → List ExitAct
  | _, 0 => []
  | s, n + 1 =>
    let r := exitWithError s
    r.2 ++ exitWithErrorTrace r.1 n

def notifyFailedCount (acts : List ExitAct) : Nat := acts.count ExitAct.notifyFailed

def reportLoadErrorCount (acts : List ExitAct) : Nat := acts.count ExitAct.reportLoadError

/-! ### `CorruptCacheFileWasDeleted` and `NexeWasCopiedToCache` (claim C5) -/

/-- What `NexeWasCopiedToCache` does next: on any write failure it first
deletes the partially written scratch cache file (passing the original
error along to `CorruptCacheFileWasDeleted`); on success it renames the
scratch file to the cache key. -/
inductive CacheFinalizeStep where
  | renameToCacheKey
  | deleteCorruptThenReport (origErr : Int)
  deriving DecidableEq, Repr

def nexeWasCopiedToCache (pp_error : Int) : CacheFinalizeStep :=
  if pp_error ≠ PP_OK then CacheFinalizeStep.deleteCorruptThenReport pp_error
  else CacheFinalizeStep.renameToCacheKey

/-- Embedding of `PnaclCoordinator::CorruptCacheFileWasDeleted`: a delete failure is only
logged (the code falls through), and the report is chosen from the original
copy error alone. -/
def corruptCacheFileWasDeleted (delete_pp_error orig_pp_error : Int) : ErrorReport :=
  -- delete_pp_error != PP_OK is logged only; control falls through either way.
  if orig_pp_error = PP_ERROR_NOQUOTA then
    ⟨ErrCode.ERROR_PNACL_CACHE_FINALIZE_COPY_NOQUOTA, orig_pp_error⟩
  else if orig_pp_error = PP_ERROR_NOSPACE then
    ⟨ErrCode.ERROR_PNACL_CACHE_FINALIZE_COPY_NOSPACE, orig_pp_error⟩
  else
    ⟨ErrCode.ERROR_PNACL_CACHE_FINALIZE_COPY_OTHER, orig_pp_error⟩

/-! ### `NexeFileWasRenamed` (claim C3) -/

inductive RenameOutcome where
  | fatal (report : ErrorReport)
  | proceed            -- FinishRename(); then OpenRead(NexeReadDidOpen)
  deriving DecidableEq, Repr

def nexeFileWasRenamed (pp_error : Int) : RenameOutcome :=
  if pp_error ≠ PP_OK then
    if pp_error = PP_ERROR_NOACCESS then
      RenameOutcome.fatal ⟨ErrCode.ERROR_PNACL_CACHE_FINALIZE_RENAME_NOACCESS, pp_error⟩
    else if pp_error ≠ PP_ERROR_FILEEXISTS then
      RenameOutcome.fatal ⟨ErrCode.ERROR_PNACL_CACHE_FINALIZE_RENAME_OTHER, pp_error⟩
    else
      -- PP_ERROR_FILEEXISTS: presumed race between two equivalent requests;
      -- fall through and continue as if the rename had committed.
      RenameOutcome.proceed
  else RenameOutcome.proceed

/-! ### `FileSystemDidOpen` (claim C4)

Pipeline-level actions visible outside the coordinator. -/

/-- A read handle handed to the caller: the underlying file bytes and the
current file position of the wrapper. -/
structure Handle where
  bytes : List Nat
  pos : Nat
  deriving DecidableEq, Repr

inductive Act where
  | report (r : ErrorReport)     -- ReportPpapiError / ReportNonPpapiError (terminal)
  | fileSystemOpen               -- file_system_->Open
  | makeDirectory                -- dir_ref_->MakeDirectory
  | cacheOpenRead                -- cached_nexe_file_->OpenRead
  | cacheOpenWrite               -- cached_nexe_file_->OpenWrite
  | cacheWrite (off req : Nat) (completed : Int)  -- write_file of cached_nexe_file_
  | cacheRename                  -- cached_nexe_file_->Rename(cache key)
  | cacheDelete                  -- cached_nexe_file_->Delete
  | finishRename                 -- cached_nexe_file_->FinishRename
  | tempRead (n : Nat)           -- temp_nexe_file_ read_wrapper Read
  | tempSeek (delta : Int)       -- temp_nexe_file_ read_wrapper Seek(SEEK_CUR)
  | objFileOpen                  -- obj_file_->Open
  | openStream                   -- streaming_downloader_->OpenStream
  | finishStreaming              -- streaming_downloader_->FinishStreaming
  | runTranslate                 -- translate_thread_->RunTranslate
  | resetTempFile                -- temp_nexe_file_->Reset()
  | progress (computable : Bool) (bytesCompiled bytesTotal : Int)
  | notify (pp_error : Int) (handle : Option Handle)  -- translate_notify_callback_.Run
  | modelOutOfFuel
  deriving DecidableEq, Repr

/-- Embedding of `PnaclCoordinator::FileSystemDidOpen`, action list in program order.
Note: in the source, the no-access / no-quota / no-space branches `return`
after reporting; the final catch-all `ReportPpapiError(ERROR_PNACL_CACHE_OPEN_OTHER, ...)`
does not `return`, so execution falls through to `dir_ref_` creation and
`MakeDirectory`. -/
def fileSystemDidOpen (pp_error : Int) : List Act :=
  if pp_error ≠ PP_OK then
    if pp_error = PP_ERROR_NOACCESS then
      [Act.report ⟨ErrCode.ERROR_PNACL_CACHE_OPEN_NOACCESS, pp_error⟩]
    else if pp_error = PP_ERROR_NOQUOTA then
      [Act.report ⟨ErrCode.ERROR_PNACL_CACHE_OPEN_NOQUOTA, pp_error⟩]
    else if pp_error = PP_ERROR_NOSPACE then
      [Act.report ⟨ErrCode.ERROR_PNACL_CACHE_OPEN_NOSPACE, pp_error⟩]
    else
      [Act.report ⟨ErrCode.ERROR_PNACL_CACHE_OPEN_OTHER, pp_error⟩,
       Act.makeDirectory]
  else
    [Act.makeDirectory]

/-! ### The cache-copy loop (claims C2, C10)

`CachedNexeOpenedForWrite` (tail) and `DidCopyNexeToCachePartial` copy the
translated nexe from `temp_nexe_file_` (read side, position already `Reset()`
to 0 by `TranslateFinished`) into `cached_nexe_file_` in chunks of
`kCopyBufSize`, one outstanding write at a time.  A write completion
`pp_error > 0` is the number of bytes written; `PP_OK` (= 0) is taken as
"assume we are done"; negative is a write error.  On a short write the read
side is sought back by `pp_error - num_read_prev` (SEEK_CUR) before the next
chunk is read.  The write oracle below supplies each write's completion
value; it is clamped to the requested size (the source `CHECK`s that a
completion never exceeds the request). -/

def kCopyBufSize : Nat := 512 * 1024

/-- Model of `read_wrapper->Read(buf, kCopyBufSize)` from position `pos`. -/
def readChunk (src : List Nat) (pos : Nat) : List Nat :=
  (src.drop pos).take kCopyBufSize

/-- Model of the cached nexe write side: overwrite `file` at `off` with `data`. -/
def writeAt (file : List Nat) (off : Nat) (data : List Nat) : List Nat :=
  file.take off ++ data ++ file.drop (off + data.length)

inductive CopyEv where
  | read (n : Nat)
  | write (off req : Nat) (completed : Int)
  | seek (delta : Int)
  deriving DecidableEq, Repr

structure CopySt where
  src : List Nat          -- temp_nexe_file_ contents
  pos : Int               -- temp_nexe_file_ read_wrapper position
  cache : List Nat        -- cached_nexe_file_ contents written so far
  writeCount : Nat
  events : List CopyEv
  deriving DecidableEq, Repr

inductive CopyOutcome where
  | copiedOk                -- NexeWasCopiedToCache(PP_OK)
  | copyFailed (err : Int)  -- NexeWasCopiedToCache(err)
  | outOfFuel
  deriving DecidableEq, Repr

/-- Model of `read_wrapper->Seek(delta, SEEK_CUR)`: the resulting position is the new
`pos`; the source treats a negative result as a seek failure. -/
def seekBack (st : CopySt) (delta : Int) : CopySt :=
  { st with pos := st.pos + delta, events := st.events ++ [CopyEv.seek delta] }

/-- The shared tail of `CachedNexeOpenedForWrite` and
`DidCopyNexeToCachePartial`: read the next chunk from the current read
position; an empty read is EOF (`NexeWasCopiedToCache(PP_OK)`), otherwise
hand the chunk to `recur`, which issues `Write(next_offset, buf, num_read)`. -/
def continueCopy (recur : CopySt → List Nat → Nat → CopySt × CopyOutcome)
    (st : CopySt) (next_offset : Nat) : CopySt × CopyOutcome :=
  let chunk := readChunk st.src st.pos.toNat
  let st3 : CopySt := { st with pos := st.pos + (chunk.length : Int),
                                events := st.events ++ [CopyEv.read chunk.length] }
  if chunk.length = 0 then (st3, CopyOutcome.copiedOk)
  else recur st3 chunk next_offset

/-- Body of `DidCopyNexeToCachePartial`, parameterized by the continuation
`recur` that issues the next chunk's write (`copyStep` below).  The source
`CHECK`s `pp_error < num_read_prev` in the short-write branch, seeks the
read side back by the unwritten remainder, and fails if the seek result is
negative. -/
def didCopyHandler (recur : CopySt → List Nat → Nat → CopySt × CopyOutcome)
    (st : CopySt) (pp_error : Int) (num_read_prev cur_offset : Nat) :
    CopySt × CopyOutcome :=
  -- "Assume we are done." (pp_error == PP_OK)
  if pp_error = PP_OK then (st, CopyOutcome.copiedOk)
  else if pp_error < PP_OK then (st, CopyOutcome.copyFailed pp_error)
  else if pp_error ≠ (num_read_prev : Int) then
    let st2 := seekBack st (pp_error - (num_read_prev : Int))
    if st2.pos < 0 then (st2, CopyOutcome.copyFailed PP_ERROR_FAILED)
    else continueCopy recur st2 (cur_offset + pp_error.toNat)
  else continueCopy recur st (cur_offset + pp_error.toNat)

/-- Issue `Write(cur_offset, chunk, chunk.length)`; its completion (from the
oracle, clamped to the request) is handled by `didCopyHandler`. -/
def copyStep (oracle : Nat → Int) : Nat → CopySt → List Nat → Nat → CopySt × CopyOutcome
  | 0, st, _, _ => (st, CopyOutcome.outOfFuel)
  | fuel + 1, st, chunk, cur_offset =>
    let req := chunk.length
    let completed : Int := min (oracle st.writeCount) (req : Int)
    let st1 : CopySt :=
      { st with
        writeCount := st.writeCount + 1,
        cache := if 0 < completed then writeAt st.cache cur_offset (chunk.take completed.toNat)
                 else st.cache,
        events := st.events ++ [CopyEv.write cur_offset req completed] }
    didCopyHandler (copyStep oracle fuel) st1 completed req cur_offset

/-- Embedding of `DidCopyNexeToCachePartial` as a standalone completion handler. -/
def didCopyNexeToCacheStep (oracle : Nat → Int) (fuel : Nat) (st : CopySt)
    (pp_error : Int) (num_read_prev cur_offset : Nat) : CopySt × CopyOutcome :=
  didCopyHandler (copyStep oracle fuel) st pp_error num_read_prev cur_offset

/-- Tail of `CachedNexeOpenedForWrite`: the read position is 0 (the
`TranslateFinished` `Reset()`); read the first chunk and enter the copy
loop with `cur_offset = 0`. -/
def copyNexeToCache (oracle : Nat → Int) (fuel : Nat) (src : List Nat) :
    CopySt × CopyOutcome :=
  continueCopy (copyStep oracle fuel)
    { src := src, pos := 0, cache := [], writeCount := 0, events := [] } 0

def isSeekEv : CopyEv → Bool
  | CopyEv.seek _ => true
  | _ => false

/-- A write completion that wrote a positive number of bytes but fewer than
requested. -/
def isShortWriteEv : CopyEv → Bool
  | CopyEv.write _ req c => decide (0 < c ∧ c < (req : Int))
  | _ => false

def seekCount (evs : List CopyEv) : Nat := (evs.filter isSeekEv).length

def shortWriteCount (evs : List CopyEv) : Nat := (evs.filter isShortWriteEv).length

/-! ### Compile progress events (claims C7, C8)

`BitcodeGotCompiled` and the final-progress part of `TranslateFinished`. -/

structure ProgressSt where
  pexe_bytes_compiled : Int
  expected_pexe_size : Int      -- constructor-initialized to -1 (unknown)
  deriving DecidableEq, Repr

/-- Modelled from the spec: `ExpectedProgressKnown` is declared in
pnacl_coordinator.h, which is not in the tree.  "Once total expected size is
known": `expected_pexe_size_` is initialized to -1 and set from the
downloader, so the size is known when it is not -1. -/
def expectedProgressKnown (s : ProgressSt) : Bool := s.expected_pexe_size ≠ -1

/-- Modelled from the spec: `ShouldDelayProgressEvent` is declared in
pnacl_coordinator.h, which is not in the tree.  "Progress events are
throttled near end-of-stream": an event is withheld when the remaining
not-yet-compiled bytes are within a small slop fraction (5%) of the
expected total. -/
def shouldDelayProgressEvent (s : ProgressSt) : Bool :=
  (s.expected_pexe_size - s.pexe_bytes_compiled) * 100 < 5 * s.expected_pexe_size

/-- A `Plugin::EnqueueProgressEvent` payload. -/
structure ProgressEvent where
  computable : Bool
  bytesCompiled : Int
  bytesTotal : Int
  deriving DecidableEq, Repr

/-- The state updates of `PnaclCoordinator::BitcodeGotCompiled`: accumulate
the compiled bytes, then — if the expected total is not yet known — ask the
downloader (`GetDownloadProgress`; `downloaderTotal` is what it reports,
-1 if unknown). -/
def bitcodeGotCompiledState (s : ProgressSt) (bytes_compiled downloaderTotal : Int) :
    ProgressSt :=
  let s1 : ProgressSt := { s with pexe_bytes_compiled := s.pexe_bytes_compiled + bytes_compiled }
  if ¬ expectedProgressKnown s1 then { s1 with expected_pexe_size := downloaderTotal } else s1

/-- Embedding of `PnaclCoordinator::BitcodeGotCompiled`: the updated state and the
progress event it enqueues, if any — held off near end-of-stream when the
expected total is known. -/
def bitcodeGotCompiled (s : ProgressSt) (bytes_compiled downloaderTotal : Int) :
    ProgressSt × Option ProgressEvent :=
  let s2 : ProgressSt := bitcodeGotCompiledState s bytes_compiled downloaderTotal
  if expectedProgressKnown s2 then
    if ¬ shouldDelayProgressEvent s2 then
      (s2, some ⟨true, s2.pexe_bytes_compiled, s2.expected_pexe_size⟩)
    else (s2, none)
  else (s2, some ⟨false, s2.pexe_bytes_compiled, s2.expected_pexe_size⟩)

/-- The final-progress portion of `TranslateFinished` on the success path:
one last progress event to finish up the delayed ones. -/
def translateFinishedProgress (s : ProgressSt) : ProgressSt × Option ProgressEvent :=
  if expectedProgressKnown s then
    ({ s with pexe_bytes_compiled := s.expected_pexe_size },
     some ⟨true, s.expected_pexe_size, s.expected_pexe_size⟩)
  else (s, none)

/-- Fold `BitcodeGotCompiled` over a sequence of (increment, downloader
total) callback pairs, collecting the emitted events. -/
def runProgress (s : ProgressSt) : List (Int × Int) → ProgressSt × List ProgressEvent
  | [] => (s, [])
  | (inc, dt) :: rest =>
    let r := bitcodeGotCompiled s inc dt
    let r2 := runProgress r.1 rest
    (r2.1, r.2.toList ++ r2.2)

/-- Reported `bytesCompiled` is non-decreasing across successive events. -/
def eventsMonotone : List ProgressEvent → Bool
  | [] => true
  | [_] => true
  | a :: b :: rest =>
    decide (a.bytesCompiled ≤ b.bytesCompiled) && eventsMonotone (b :: rest)

/-- Every length-computable event reports `bytesCompiled ≤ bytesTotal`. -/
def eventsWithinTotal (evs : List ProgressEvent) : Bool :=
  evs.all fun e => !e.computable || decide (e.bytesCompiled ≤ e.bytesTotal)

/-! ### The success-path pipeline driver (claims C3, C6, C9)

A linearization of the old-cache (`use_new_cache_ = false`, the constructor
default) pipeline on the success path: every external completion reports
`PP_OK`, branching is driven by the request configuration, and write
completions during the cache copy come from the oracle.  Each `...D`
function mirrors the corresponding coordinator callback and returns the
externally visible actions in program order. -/

structure Cfg where
  offTheRecord : Bool        -- IsOffTheRecord() at BitcodeToNative
  headersNoStore : Bool      -- parser.CacheControlNoStore()
  headersValidators : String -- parser.GetCacheValidators()
  url : String               -- streaming_downloader_->url()
  cacheHit : Bool            -- whether a committed entry exists under the key
  cachedBytes : List Nat     -- its contents when cacheHit
  nexeBytes : List Nat       -- what translation writes into temp_nexe_file_
  posAfterTranslate : Nat    -- temp read-wrapper position after translation
  expectedPexeSize : Int     -- expected_pexe_size_ at TranslateFinished (-1 unknown)

structure DriverSt where
  cacheValidators : String           -- pnacl_options_ cache validators
  cachedNexeFile : Option (List Nat) -- cached_nexe_file_ (None = NULL)
  tempNexeBytes : List Nat           -- temp_nexe_file_ contents
  tempNexePos : Nat                  -- temp read-wrapper position

/-- Modelled from the spec: `PnaclOptions::HasCacheKey` (pnacl_options.h is
not in the tree) — absence of cache validators means caching is disabled
for the request. -/
def hasCacheKey (validators : String) : Bool := validators ≠ ""

/-- Driver step `NexeReadDidOpen(PP_OK)`: hand over the read wrapper — the cache file's
(freshly opened for read, so positioned at 0) if one exists, otherwise the
temp nexe file's at its current position. -/
def nexeReadDidOpenD (st : DriverSt) : List Act :=
  match st.cachedNexeFile with
  | some bytes => [Act.notify PP_OK (some ⟨bytes, 0⟩)]
  | none => [Act.notify PP_OK (some ⟨st.tempNexeBytes, st.tempNexePos⟩)]

/-- Driver step `NexeFileWasRenamed`: fatal report, or FinishRename + OpenRead and
continue into `NexeReadDidOpen(PP_OK)`. -/
def nexeFileWasRenamedD (st : DriverSt) (pp_error : Int) : List Act :=
  match nexeFileWasRenamed pp_error with
  | RenameOutcome.fatal r => [Act.report r]
  | RenameOutcome.proceed => [Act.finishRename, Act.cacheOpenRead] ++ nexeReadDidOpenD st

/-- Driver step `NexeWasCopiedToCache` (the best-effort delete succeeds). -/
def nexeWasCopiedToCacheD (st : DriverSt) (pp_error : Int) : List Act :=
  match nexeWasCopiedToCache pp_error with
  | CacheFinalizeStep.deleteCorruptThenReport e =>
      [Act.cacheDelete, Act.report (corruptCacheFileWasDeleted PP_OK e)]
  | CacheFinalizeStep.renameToCacheKey =>
      [Act.cacheRename] ++ nexeFileWasRenamedD st PP_OK

def copyEvToActs : CopyEv → Act
  | CopyEv.read n => Act.tempRead n
  | CopyEv.write off req c => Act.cacheWrite off req c
  | CopyEv.seek d => Act.tempSeek d

/-- Driver step `CachedNexeOpenedForWrite(PP_OK)`: run the copy loop, then finalize. -/
def cachedNexeOpenedForWriteD (oracle : Nat → Int) (fuel : Nat) (st : DriverSt) : List Act :=
  let r := copyNexeToCache oracle fuel st.tempNexeBytes
  let st2 : DriverSt := { st with cachedNexeFile := some r.1.cache,
                                  tempNexePos := r.1.pos.toNat }
  (r.1.events.map copyEvToActs) ++
  (match r.2 with
   | CopyOutcome.copiedOk => nexeWasCopiedToCacheD st2 PP_OK
   | CopyOutcome.copyFailed e => nexeWasCopiedToCacheD st2 e
   | CopyOutcome.outOfFuel => [Act.modelOutOfFuel])

/-- Driver step `TranslateFinished(PP_OK)` with `translate_finish_error_ == PP_OK`:
final delayed progress event, stats, `Reset()` of the temp nexe read
pointer, then either the cache-copy path (cache key present and a cache
file object exists: reset it to a scratch name and open for write) or the
"not caching" path straight to `NexeReadDidOpen(PP_OK)`. -/
def translateFinishedD (cfg : Cfg) (oracle : Nat → Int) (fuel : Nat) (st : DriverSt) : List Act :=
  (if cfg.expectedPexeSize ≠ -1 then
    [Act.progress true cfg.expectedPexeSize cfg.expectedPexeSize]
   else []) ++
  [Act.resetTempFile] ++
  (let st1 : DriverSt := { st with tempNexePos := 0 }
   if hasCacheKey st1.cacheValidators && st1.cachedNexeFile.isSome then
     [Act.cacheOpenWrite] ++ cachedNexeOpenedForWriteD oracle fuel st1
   else
     nexeReadDidOpenD st1)

/-- Driver step `CachedFileDidOpen`: `PP_OK` is a cache hit served directly; otherwise
the miss path streams the rest, translation runs and succeeds (the worker
fills the temp nexe file), and `TranslateFinished(PP_OK)` follows. -/
def cachedFileDidOpenD (cfg : Cfg) (oracle : Nat → Int) (fuel : Nat) (st : DriverSt)
    (pp_error : Int) : List Act :=
  if pp_error = PP_OK then
    nexeReadDidOpenD st
  else
    [Act.finishStreaming, Act.runTranslate] ++
    translateFinishedD cfg oracle fuel
      { st with tempNexeBytes := cfg.nexeBytes, tempNexePos := cfg.posAfterTranslate }

/-- Driver step `BitcodeStreamDidOpen(PP_OK)`: derive cache validators from the response
headers; `no-store` or missing validators disable caching
(`CachedFileDidOpen(PP_ERROR_FAILED)` without touching the cache);
otherwise probe the cache entry named by validators + url.  Off-the-record
requests take the no-cache path directly. -/
def bitcodeStreamDidOpenD (cfg : Cfg) (oracle : Nat → Int) (fuel : Nat) (st : DriverSt) :
    List Act :=
  if ¬ cfg.offTheRecord then
    if cfg.headersNoStore || cfg.headersValidators = "" then
      cachedFileDidOpenD cfg oracle fuel { st with cacheValidators := "" } PP_ERROR_FAILED
    else
      [Act.cacheOpenRead] ++
      cachedFileDidOpenD cfg oracle fuel
        { st with cacheValidators := cfg.headersValidators ++ cfg.url,
                  cachedNexeFile := some (if cfg.cacheHit then cfg.cachedBytes else []) }
        (if cfg.cacheHit then PP_OK else PP_ERROR_FAILED)
  else
    cachedFileDidOpenD cfg oracle fuel st PP_ERROR_FAILED

/-- Driver step `OpenBitcodeStream`: obj file opened for the translator, stream opened. -/
def openBitcodeStreamD (cfg : Cfg) (oracle : Nat → Int) (fuel : Nat) (st : DriverSt) :
    List Act :=
  [Act.objFileOpen, Act.openStream] ++ bitcodeStreamDidOpenD cfg oracle fuel st

/-- Driver step `ResourcesDidLoad(PP_OK)`: off-the-record skips the cache filesystem and
goes straight to `OpenBitcodeStream`; otherwise the local temporary
filesystem is opened (`FileSystemDidOpen(PP_OK)` makes the cache
directory; `DirectoryWasCreated(PP_OK)` continues). -/
def resourcesDidLoadD (cfg : Cfg) (oracle : Nat → Int) (fuel : Nat) (st : DriverSt) :
    List Act :=
  if ¬ cfg.offTheRecord then
    [Act.fileSystemOpen] ++ fileSystemDidOpen PP_OK ++ openBitcodeStreamD cfg oracle fuel st
  else
    openBitcodeStreamD cfg oracle fuel st

/-- Coordinator construction state: no validators, no cache file object. -/
def initDriverSt : DriverSt :=
  { cacheValidators := "", cachedNexeFile := none, tempNexeBytes := [], tempNexePos := 0 }

def runPipeline (cfg : Cfg) (oracle : Nat → Int) (fuel : Nat) : List Act :=
  resourcesDidLoadD cfg oracle fuel initDriverSt

/-- Caching is disabled for the request: off-the-record context, or the
response headers carry cache-control no-store or lack validators. -/
def cachingDisabled (cfg : Cfg) : Prop :=
  cfg.offTheRecord = true ∨ cfg.headersNoStore = true ∨ cfg.headersValidators = ""

/-- Cache-store file operations, as enumerated by the spec: cache file
open (read or write), write, rename, delete. -/
def isCacheFileOp : Act → Bool
  | Act.cacheOpenRead => true
  | Act.cacheOpenWrite => true
  | Act.cacheWrite _ _ _ => true
  | Act.cacheRename => true
  | Act.cacheDelete => true
  | _ => false

def isNotifyAct : Act → Bool
  | Act.notify _ _ => true
  | _ => false

/-- The trace contains exactly one completion-callback invocation, it
reports `PP_OK`, and it carries a read handle positioned at the start of
the file. -/
def notifyHandleAtStart (acts : List Act) : Bool :=
  match acts.filter isNotifyAct with
  | [Act.notify e (some h)] => decide (e = PP_OK) && decide (h.pos = 0)
  | _ => false

/-! ### Lemmas about the copy loop -/

lemma readChunk_length (src : List Nat) (p : Nat) :
    (readChunk src p).length = min kCopyBufSize (src.length - p) := by
  simp [readChunk]

lemma readChunk_len_zero_iff (src : List Nat) (p : Nat) :
    (readChunk src p).length = 0 ↔ src.length ≤ p := by
  rw [readChunk_length]
  have : 0 < kCopyBufSize := by norm_num [kCopyBufSize]
  omega

lemma writeAt_take (src : List Nat) (off w : Nat) (hw : w ≤ kCopyBufSize) :
    writeAt (src.take off) off ((readChunk src off).take w) = src.take (off + w) := by
  have h1 : (readChunk src off).take w = (src.drop off).take w := by
    unfold readChunk
    rw [List.take_take, min_eq_left hw]
  have h2 : (src.take off).take off = src.take off := by
    rw [List.take_take, min_self]
  have h3 : (src.take off).drop (off + ((src.drop off).take w).length) = [] := by
    apply List.drop_eq_nil_of_le
    simp only [List.length_take]
    omega
  unfold writeAt
  rw [h1, h2, h3, List.append_nil, List.take_add]

@[simp] lemma seekCount_append (a b : List CopyEv) :
    seekCount (a ++ b) = seekCount a + seekCount b := by
  simp [seekCount, List.filter_append]

@[simp] lemma shortWriteCount_append (a b : List CopyEv) :
    shortWriteCount (a ++ b) = shortWriteCount a + shortWriteCount b := by
  simp [shortWriteCount, List.filter_append]

@[simp] lemma seekCount_nil : seekCount [] = 0 := rfl

@[simp] lemma shortWriteCount_nil : shortWriteCount [] = 0 := rfl

@[simp] lemma seekCount_read (n : Nat) : seekCount [CopyEv.read n] = 0 := rfl

@[simp] lemma seekCount_write (o r : Nat) (c : Int) :
    seekCount [CopyEv.write o r c] = 0 := rfl

@[simp] lemma seekCount_seek (d : Int) : seekCount [CopyEv.seek d] = 1 := rfl

@[simp] lemma shortWriteCount_read (n : Nat) : shortWriteCount [CopyEv.read n] = 0 := rfl

@[simp] lemma shortWriteCount_seek (d : Int) : shortWriteCount [CopyEv.seek d] = 0 := rfl

lemma shortWriteCount_write (o r : Nat) (c : Int) :
    shortWriteCount [CopyEv.write o r c] = if 0 < c ∧ c < (r : Int) then 1 else 0 := by
  by_cases h : 0 < c ∧ c < (r : Int) <;>
    simp [shortWriteCount, isShortWriteEv, List.filter, h]

@[simp] lemma seekBack_src (st : CopySt) (d : Int) : (seekBack st d).src = st.src := rfl

@[simp] lemma seekBack_pos (st : CopySt) (d : Int) : (seekBack st d).pos = st.pos + d := rfl

@[simp] lemma seekBack_cache (st : CopySt) (d : Int) : (seekBack st d).cache = st.cache := rfl

@[simp] lemma seekBack_writeCount (st : CopySt) (d : Int) :
    (seekBack st d).writeCount = st.writeCount := rfl

@[simp] lemma seekBack_events (st : CopySt) (d : Int) :
    (seekBack st d).events = st.events ++ [CopyEv.seek d] := rfl

/-- One write step of the copy loop preserves the invariant, assuming the
loop with one unit less fuel does (`ih`). -/
lemma copyStep_succ_inv (oracle : Nat → Int) (fuel : Nat)
    (hor : ∀ k, 1 ≤ oracle k)
    (ih : ∀ (st : CopySt) (p : Nat),
      st.cache = st.src.take p → st.pos = (p : Int) → st.src.length ≤ fuel + p →
      (continueCopy (copyStep oracle fuel) st p).2 = CopyOutcome.copiedOk ∧
      (continueCopy (copyStep oracle fuel) st p).1.cache = st.src ∧
      (continueCopy (copyStep oracle fuel) st p).1.src = st.src ∧
      seekCount (continueCopy (copyStep oracle fuel) st p).1.events + shortWriteCount st.events =
        shortWriteCount (continueCopy (copyStep oracle fuel) st p).1.events +
          seekCount st.events) :
    ∀ (st : CopySt) (chunk : List Nat) (p : Nat),
      st.cache = st.src.take p →
      chunk = readChunk st.src p →
      chunk.length ≠ 0 →
      st.pos = ((p + chunk.length : Nat) : Int) →
      st.src.length ≤ (fuel + 1) + p →
      (copyStep oracle (fuel + 1) st chunk p).2 = CopyOutcome.copiedOk ∧
      (copyStep oracle (fuel + 1) st chunk p).1.cache = st.src ∧
      (copyStep oracle (fuel + 1) st chunk p).1.src = st.src ∧
      seekCount (copyStep oracle (fuel + 1) st chunk p).1.events + shortWriteCount st.events =
        shortWriteCount (copyStep oracle (fuel + 1) st chunk p).1.events +
          seekCount st.events := by
  intro st chunk p hc hch hne hp hf
  have hreq1 : 1 ≤ chunk.length := Nat.one_le_iff_ne_zero.2 hne
  have hreqBuf : chunk.length ≤ kCopyBufSize := by
    rw [hch, readChunk_length]; omega
  have horc := hor st.writeCount
  have hc1 : 1 ≤ min (oracle st.writeCount) ((chunk.length : Nat) : Int) :=
    le_min horc (by exact_mod_cast hreq1)
  have hcr : min (oracle st.writeCount) ((chunk.length : Nat) : Int) ≤
      ((chunk.length : Nat) : Int) := min_le_right _ _
  simp only [copyStep]
  set c : Int := min (oracle st.writeCount) ((chunk.length : Nat) : Int) with hcdef
  have hcw : (c.toNat : Int) = c := Int.toNat_of_nonneg (by omega)
  have hw1 : 1 ≤ c.toNat := by omega
  have hwr : c.toNat ≤ chunk.length := by omega
  have hcache1 : (if 0 < c then writeAt st.cache p (chunk.take c.toNat) else st.cache)
      = st.src.take (p + c.toNat) := by
    rw [if_pos (by omega), hc, hch, writeAt_take st.src p c.toNat (le_trans hwr hreqBuf)]
  simp only [didCopyHandler]
  rw [if_neg (show ¬(c = PP_OK) by simp only [PP_OK]; omega),
      if_neg (show ¬(c < PP_OK) by simp only [PP_OK]; omega), hcache1]
  set stw : CopySt :=
    { st with
      writeCount := st.writeCount + 1,
      cache := st.src.take (p + c.toNat),
      events := st.events ++ [CopyEv.write p chunk.length c] } with hstw
  have hstw_src : stw.src = st.src := by rw [hstw]
  have hstw_pos : stw.pos = st.pos := by rw [hstw]
  have hstw_cache : stw.cache = st.src.take (p + c.toNat) := by rw [hstw]
  have hstw_events : stw.events = st.events ++ [CopyEv.write p chunk.length c] := by rw [hstw]
  by_cases hfull : c = ((chunk.length : Nat) : Int)
  · rw [if_neg (not_not_intro hfull)]
    have h1 : stw.cache = stw.src.take (p + c.toNat) := by rw [hstw_cache, hstw_src]
    have h2 : stw.pos = ((p + c.toNat : Nat) : Int) := by
      rw [hstw_pos, hp]; push_cast; omega
    have h3 : stw.src.length ≤ fuel + (p + c.toNat) := by rw [hstw_src]; omega
    obtain ⟨o1, o2, o3, o4⟩ := ih stw (p + c.toNat) h1 h2 h3
    refine ⟨o1, ?_, ?_, ?_⟩
    · rw [o2, hstw_src]
    · rw [o3, hstw_src]
    · rw [hstw_events] at o4
      simp only [seekCount_append, shortWriteCount_append, seekCount_write,
        shortWriteCount_write] at o4
      rw [if_neg (show ¬(0 < c ∧ c < ((chunk.length : Nat) : Int)) by omega)] at o4
      omega
  · rw [if_pos hfull]
    have hpos : ¬((seekBack stw (c - ((chunk.length : Nat) : Int))).pos < 0) := by
      rw [seekBack_pos, hstw_pos, hp]; push_cast; omega
    rw [if_neg hpos]
    have h1 : (seekBack stw (c - ((chunk.length : Nat) : Int))).cache =
        (seekBack stw (c - ((chunk.length : Nat) : Int))).src.take (p + c.toNat) := by
      rw [seekBack_cache, seekBack_src, hstw_cache, hstw_src]
    have h2 : (seekBack stw (c - ((chunk.length : Nat) : Int))).pos =
        ((p + c.toNat : Nat) : Int) := by
      rw [seekBack_pos, hstw_pos, hp]; push_cast; omega
    have h3 : (seekBack stw (c - ((chunk.length : Nat) : Int))).src.length ≤
        fuel + (p + c.toNat) := by
      rw [seekBack_src, hstw_src]; omega
    obtain ⟨o1, o2, o3, o4⟩ :=
      ih (seekBack stw (c - ((chunk.length : Nat) : Int))) (p + c.toNat) h1 h2 h3
    refine ⟨o1, ?_, ?_, ?_⟩
    · rw [o2, seekBack_src, hstw_src]
    · rw [o3, seekBack_src, hstw_src]
    · rw [seekBack_events, hstw_events] at o4
      simp only [seekCount_append, shortWriteCount_append, seekCount_write,
        shortWriteCount_write, seekCount_seek, shortWriteCount_seek] at o4
      rw [if_pos (show 0 < c ∧ c < ((chunk.length : Nat) : Int) from
        ⟨by omega, lt_of_le_of_ne hcr hfull⟩)] at o4
      omega

/-- Invariant-based correctness of the copy loop: if every write completion
reports at least one byte written, the loop terminates with `copiedOk`, the
cache file holds exactly the source bytes, and the number of re-seeks grows
exactly with the number of short writes. -/
lemma copyLoop_inv (oracle : Nat → Int) (hor : ∀ k, 1 ≤ oracle k) :
    ∀ (fuel : Nat) (st : CopySt) (p : Nat),
      st.cache = st.src.take p →
      st.pos = (p : Int) →
      st.src.length ≤ fuel + p →
      (continueCopy (copyStep oracle fuel) st p).2 = CopyOutcome.copiedOk ∧
      (continueCopy (copyStep oracle fuel) st p).1.cache = st.src ∧
      (continueCopy (copyStep oracle fuel) st p).1.src = st.src ∧
      seekCount (continueCopy (copyStep oracle fuel) st p).1.events + shortWriteCount st.events =
        shortWriteCount (continueCopy (copyStep oracle fuel) st p).1.events + seekCount st.events := by
  intro fuel
  induction fuel with
  | zero =>
    intro st p hc hp hf
    have hlen : (readChunk st.src p).length = 0 :=
      (readChunk_len_zero_iff st.src p).2 (by omega)
    have hsrc : st.src.take p = st.src :=
      List.take_of_length_le (by omega)
    rw [continueCopy]
    simp only [hp, Int.toNat_natCast]
    rw [if_pos hlen]
    refine ⟨rfl, ?_, rfl, ?_⟩
    · simpa [hc] using hsrc
    · simp only [seekCount_append, shortWriteCount_append, seekCount_read, shortWriteCount_read]
      omega
  | succ fuel ih =>
    intro st p hc hp hf
    rw [continueCopy]
    simp only [hp, Int.toNat_natCast]
    by_cases hlen : (readChunk st.src p).length = 0
    · rw [if_pos hlen]
      have hsrc : st.src.take p = st.src :=
        List.take_of_length_le (by rw [← readChunk_len_zero_iff]; exact hlen)
      refine ⟨rfl, ?_, rfl, ?_⟩
      · simpa [hc] using hsrc
      · simp only [seekCount_append, shortWriteCount_append, seekCount_read, shortWriteCount_read]
        omega
    · rw [if_neg hlen]
      obtain ⟨a1, a2, a3, a4⟩ := copyStep_succ_inv oracle fuel hor ih
        { st with pos := (p : Int) + (((readChunk st.src p).length : Nat) : Int),
                  events := st.events ++ [CopyEv.read (readChunk st.src p).length] }
        (readChunk st.src p) p (by simpa using hc) rfl hlen
        (by show (p : Int) + _ = _; push_cast; omega)
        (by show st.src.length ≤ _; omega)
      refine ⟨a1, by simpa using a2, by simpa using a3, ?_⟩
      simp only [seekCount_append, shortWriteCount_append, seekCount_read,
        shortWriteCount_read] at a4
      omega

/-! ### Claim C1 -/

lemma exitTrace_after_report (n : Nat) :
    notifyFailedCount (exitWithErrorTrace ⟨true⟩ n) = 0 ∧
    reportLoadErrorCount (exitWithErrorTrace ⟨true⟩ n) = n := by
  induction n with
  | zero => simp [exitWithErrorTrace, notifyFailedCount, reportLoadErrorCount]
  | succ n ih =>
    obtain ⟨ih1, ih2⟩ := ih
    simp only [exitWithErrorTrace, exitWithError] at *
    simp [notifyFailedCount, reportLoadErrorCount, List.count_append, List.count_cons] at *
    omega

/-- C1: a failure indication is delivered to the caller's completion
callback at most once per request: across any number of calls to the
error-exit path `ExitWithError`, the completion callback
(`translate_notify_callback_`) runs at most once, while each call still
records the error via `plugin_->ReportLoadError`. -/
theorem c1_error_latch (n : Nat) :
    notifyFailedCount (exitWithErrorTrace ⟨false⟩ n) ≤ 1 ∧
    reportLoadErrorCount (exitWithErrorTrace ⟨false⟩ n) = n := by
  cases n with
  | zero => simp [exitWithErrorTrace, notifyFailedCount, reportLoadErrorCount]
  | succ n =>
    obtain ⟨h1, h2⟩ := exitTrace_after_report n
    simp only [exitWithErrorTrace, exitWithError] at *
    simp [notifyFailedCount, reportLoadErrorCount, List.count_append, List.count_cons] at *
    omega

/-! ### Claim C2 -/

/-- C2 counterexample: a write completion may also report zero bytes
written (`pp_error = PP_OK = 0`), which is fewer than the 3 bytes
requested; the code then takes the "assume we are done" branch — no
re-seek, no re-read — and the copy finishes with an empty cache artifact,
not byte-identical to the 3-byte source. -/
theorem c2_zero_write_counterexample :
    (copyNexeToCache (fun _ => 0) 4 [7, 8, 9]).2 = CopyOutcome.copiedOk ∧
    (copyNexeToCache (fun _ => 0) 4 [7, 8, 9]).1.events =
      [CopyEv.read 3, CopyEv.write 0 3 0] ∧
    (copyNexeToCache (fun _ => 0) 4 [7, 8, 9]).1.cache ≠ [7, 8, 9] := by
  decide

/-- C2 (amended): for every write completion that reports a positive number
of bytes written fewer than were requested, the coordinator re-seeks the
read side back by the unwritten remainder before issuing the next chunk
(one seek per short write), and — provided every write completion reports
at least one byte — the final cache artifact is byte-identical to the
translated output.  (A zero-byte completion instead ends the copy as if it
had succeeded; see the counterexample.) -/
theorem c2_short_write_recovery (src : List Nat) (oracle : Nat → Int) (fuel : Nat)
    (hor : ∀ k, 1 ≤ oracle k) (hfuel : src.length ≤ fuel) :
    (copyNexeToCache oracle fuel src).2 = CopyOutcome.copiedOk ∧
    (copyNexeToCache oracle fuel src).1.cache = src ∧
    seekCount (copyNexeToCache oracle fuel src).1.events =
      shortWriteCount (copyNexeToCache oracle fuel src).1.events := by
  obtain ⟨h1, h2, h3, h4⟩ := copyLoop_inv oracle hor fuel
    { src := src, pos := 0, cache := [], writeCount := 0, events := [] } 0
    (by simp) (by simp) (by simpa using hfuel)
  simp only [copyNexeToCache]
  refine ⟨h1, ?_, ?_⟩
  · simpa using h2
  · simp only [seekCount_nil, shortWriteCount_nil] at h4
    omega

theorem c2_short_write_recovery_witness :
    (copyNexeToCache (fun _ => 2) 3 [1, 2, 3]).2 = CopyOutcome.copiedOk ∧
    (copyNexeToCache (fun _ => 2) 3 [1, 2, 3]).1.cache = [1, 2, 3] ∧
    seekCount (copyNexeToCache (fun _ => 2) 3 [1, 2, 3]).1.events =
      shortWriteCount (copyNexeToCache (fun _ => 2) 3 [1, 2, 3]).1.events :=
  c2_short_write_recovery [1, 2, 3] (fun _ => 2) 3 (fun _ => by norm_num) (by norm_num)

/-! ### Claim C10 -/

/-- C10: a write completion reporting zero bytes written (`PP_OK = 0`) is
treated as successful completion of the whole copy: the handler returns
immediately with the state untouched (no re-read, no re-seek, no further
write), and `NexeWasCopiedToCache(PP_OK)` proceeds straight to the
rename/commit of the scratch file to the cache key. -/
theorem c10_zero_write_treated_as_done (oracle : Nat → Int) (fuel : Nat) (st : CopySt)
    (num_read_prev cur_offset : Nat) :
    didCopyNexeToCacheStep oracle fuel st PP_OK num_read_prev cur_offset
      = (st, CopyOutcome.copiedOk) ∧
    nexeWasCopiedToCache PP_OK = CacheFinalizeStep.renameToCacheKey := by
  constructor
  · rw [didCopyNexeToCacheStep, didCopyHandler, if_pos rfl]
  · rw [nexeWasCopiedToCache, if_neg (not_not_intro rfl)]

/-! ### Claim C3 -/

/-- C3: when the finalizing rename fails with `PP_ERROR_FILEEXISTS` (name
collision), the pipeline does not fail — it finishes the rename
bookkeeping (`FinishRename`), opens the existing target for reading, and
continues to hand the result to the caller; a rename failure with
`PP_ERROR_NOACCESS` or any other error code is fatal (reported via
`ReportPpapiError`, which runs the terminal error-exit path). -/
theorem c3_rename_collision_benign (st : DriverSt) :
    nexeFileWasRenamedD st PP_ERROR_FILEEXISTS =
      [Act.finishRename, Act.cacheOpenRead] ++ nexeReadDidOpenD st ∧
    (∀ e : Int, e ≠ PP_OK → e ≠ PP_ERROR_FILEEXISTS →
      nexeFileWasRenamedD st e =
        [Act.report ⟨(if e = PP_ERROR_NOACCESS then
            ErrCode.ERROR_PNACL_CACHE_FINALIZE_RENAME_NOACCESS
          else ErrCode.ERROR_PNACL_CACHE_FINALIZE_RENAME_OTHER), e⟩]) := by
  constructor
  · simp [nexeFileWasRenamedD, nexeFileWasRenamed, PP_OK, PP_ERROR_FILEEXISTS,
      PP_ERROR_NOACCESS]
  · intro e h0 hf
    simp only [PP_OK, PP_ERROR_FILEEXISTS] at h0 hf
    by_cases hna : e = (-7 : Int) <;>
      simp [nexeFileWasRenamedD, nexeFileWasRenamed, h0, hf, hna, PP_OK,
        PP_ERROR_NOACCESS, PP_ERROR_FILEEXISTS]

theorem c3_rename_collision_benign_witness :
    nexeFileWasRenamedD initDriverSt PP_ERROR_FILEEXISTS =
      [Act.finishRename, Act.cacheOpenRead] ++ nexeReadDidOpenD initDriverSt ∧
    nexeFileWasRenamedD initDriverSt PP_ERROR_NOACCESS =
      [Act.report ⟨(if PP_ERROR_NOACCESS = PP_ERROR_NOACCESS then
          ErrCode.ERROR_PNACL_CACHE_FINALIZE_RENAME_NOACCESS
        else ErrCode.ERROR_PNACL_CACHE_FINALIZE_RENAME_OTHER), PP_ERROR_NOACCESS⟩] :=
  ⟨(c3_rename_collision_benign initDriverSt).1,
   (c3_rename_collision_benign initDriverSt).2 PP_ERROR_NOACCESS (by decide) (by decide)⟩

/-! ### Claim C4 -/

/-- C4 (code bug): in `FileSystemDidOpen`, the no-access / no-quota /
no-space branches return after reporting, but the catch-all
`ERROR_PNACL_CACHE_OPEN_OTHER` branch is missing a `return`: after
reporting the unrecoverable error (which runs `ExitWithError`, cancelling
callbacks and delivering the failure), the function falls through and
still creates the cache directory (`MakeDirectory`) — a further pipeline
operation after a terminal error, contradicting the terminal-`Failed`
semantics (and the function's own sibling branches). -/
theorem c4_open_failure_still_makes_directory :
    fileSystemDidOpen PP_ERROR_FAILED =
      [Act.report ⟨ErrCode.ERROR_PNACL_CACHE_OPEN_OTHER, PP_ERROR_FAILED⟩,
       Act.makeDirectory] ∧
    fileSystemDidOpen PP_ERROR_NOACCESS =
      [Act.report ⟨ErrCode.ERROR_PNACL_CACHE_OPEN_NOACCESS, PP_ERROR_NOACCESS⟩] := by
  decide

/-! ### Claim C5 -/

/-- C5: on any cache-copy write failure the scratch cache entry is deleted
(best-effort) before the error is surfaced, and the report depends only on
the original write error — categorized as no-quota, no-space, or other,
carrying the original `pp_error` — regardless of whether the deletion
itself failed. -/
theorem c5_delete_then_report_original (writeErr deleteErr : Int)
    (hw : writeErr ≠ PP_OK) :
    nexeWasCopiedToCache writeErr = CacheFinalizeStep.deleteCorruptThenReport writeErr ∧
    corruptCacheFileWasDeleted deleteErr writeErr =
      corruptCacheFileWasDeleted PP_OK writeErr ∧
    (corruptCacheFileWasDeleted deleteErr writeErr).pp_error = writeErr ∧
    (corruptCacheFileWasDeleted deleteErr writeErr).code =
      (if writeErr = PP_ERROR_NOQUOTA then ErrCode.ERROR_PNACL_CACHE_FINALIZE_COPY_NOQUOTA
       else if writeErr = PP_ERROR_NOSPACE then ErrCode.ERROR_PNACL_CACHE_FINALIZE_COPY_NOSPACE
       else ErrCode.ERROR_PNACL_CACHE_FINALIZE_COPY_OTHER) := by
  refine ⟨by rw [nexeWasCopiedToCache, if_pos hw], rfl, ?_, ?_⟩ <;>
    by_cases h1 : writeErr = (-10 : Int) <;>
    by_cases h2 : writeErr = (-9 : Int) <;>
    simp [corruptCacheFileWasDeleted, h1, h2, PP_ERROR_NOQUOTA, PP_ERROR_NOSPACE]

theorem c5_delete_then_report_original_witness :
    nexeWasCopiedToCache PP_ERROR_NOQUOTA =
      CacheFinalizeStep.deleteCorruptThenReport PP_ERROR_NOQUOTA ∧
    corruptCacheFileWasDeleted PP_ERROR_FAILED PP_ERROR_NOQUOTA =
      corruptCacheFileWasDeleted PP_OK PP_ERROR_NOQUOTA ∧
    (corruptCacheFileWasDeleted PP_ERROR_FAILED PP_ERROR_NOQUOTA).pp_error =
      PP_ERROR_NOQUOTA ∧
    (corruptCacheFileWasDeleted PP_ERROR_FAILED PP_ERROR_NOQUOTA).code =
      (if PP_ERROR_NOQUOTA = PP_ERROR_NOQUOTA then
        ErrCode.ERROR_PNACL_CACHE_FINALIZE_COPY_NOQUOTA
       else if PP_ERROR_NOQUOTA = PP_ERROR_NOSPACE then
        ErrCode.ERROR_PNACL_CACHE_FINALIZE_COPY_NOSPACE
       else ErrCode.ERROR_PNACL_CACHE_FINALIZE_COPY_OTHER) :=
  c5_delete_then_report_original PP_ERROR_NOQUOTA PP_ERROR_FAILED (by decide)

/-! ### Progress lemmas and claims C7, C8 -/

lemma bitcodeGotCompiled_fst (s : ProgressSt) (inc dt : Int) :
    (bitcodeGotCompiled s inc dt).1 = bitcodeGotCompiledState s inc dt := by
  simp only [bitcodeGotCompiled]
  split
  · split <;> rfl
  · rfl

lemma bitcodeGotCompiledState_compiled (s : ProgressSt) (inc dt : Int) :
    (bitcodeGotCompiledState s inc dt).pexe_bytes_compiled = s.pexe_bytes_compiled + inc := by
  simp only [bitcodeGotCompiledState]
  split <;> rfl

lemma bitcodeGotCompiledState_expected (s : ProgressSt) (inc dt : Int)
    (hdt : dt = -1 ∨ 0 ≤ dt)
    (hexp : s.expected_pexe_size = -1 ∨ 0 ≤ s.expected_pexe_size) :
    (bitcodeGotCompiledState s inc dt).expected_pexe_size = -1 ∨
      0 ≤ (bitcodeGotCompiledState s inc dt).expected_pexe_size := by
  simp only [bitcodeGotCompiledState]
  split
  · exact hdt
  · exact hexp

lemma bitcodeGotCompiled_event (s : ProgressSt) (inc dt : Int) (e : ProgressEvent)
    (he : (bitcodeGotCompiled s inc dt).2 = some e) :
    e.bytesCompiled = s.pexe_bytes_compiled + inc ∧
    e.bytesTotal = (bitcodeGotCompiledState s inc dt).expected_pexe_size ∧
    (e.computable = true →
      expectedProgressKnown (bitcodeGotCompiledState s inc dt) = true ∧
      shouldDelayProgressEvent (bitcodeGotCompiledState s inc dt) = false) := by
  simp only [bitcodeGotCompiled] at he
  by_cases hk : expectedProgressKnown (bitcodeGotCompiledState s inc dt) = true
  · rw [if_pos hk] at he
    by_cases hd : shouldDelayProgressEvent (bitcodeGotCompiledState s inc dt) = true
    · rw [if_neg (by simp [hd])] at he
      simp at he
    · rw [if_pos hd] at he
      simp only at he
      injection he with he1
      subst he1
      exact ⟨bitcodeGotCompiledState_compiled s inc dt, rfl,
        fun _ => ⟨hk, by simpa using hd⟩⟩
  · rw [if_neg hk] at he
    simp only at he
    injection he with he1
    subst he1
    refine ⟨bitcodeGotCompiledState_compiled s inc dt, rfl, fun hco => ?_⟩
    simp at hco

/-- Absence of the delay condition with a nonnegative total bounds the compiled counter. -/
lemma not_delay_le (s : ProgressSt) (h0 : 0 ≤ s.expected_pexe_size)
    (hd : shouldDelayProgressEvent s = false) :
    s.pexe_bytes_compiled ≤ s.expected_pexe_size := by
  have : ¬ ((s.expected_pexe_size - s.pexe_bytes_compiled) * 100 < 5 * s.expected_pexe_size) := by
    simpa [shouldDelayProgressEvent] using hd
  nlinarith [this]

lemma eventsMonotone_cons (e : ProgressEvent) (evs : List ProgressEvent)
    (h : ∀ x ∈ evs, e.bytesCompiled ≤ x.bytesCompiled)
    (hm : eventsMonotone evs = true) :
    eventsMonotone (e :: evs) = true := by
  cases evs with
  | nil => rfl
  | cons b rest =>
    simp only [eventsMonotone, Bool.and_eq_true, decide_eq_true_eq]
    exact ⟨h b (by simp), hm⟩

lemma eventsWithinTotal_cons (e : ProgressEvent) (evs : List ProgressEvent) :
    eventsWithinTotal (e :: evs) = true ↔
      ((e.computable = true → e.bytesCompiled ≤ e.bytesTotal) ∧
       eventsWithinTotal evs = true) := by
  simp only [eventsWithinTotal, List.all_cons, Bool.and_eq_true, Bool.or_eq_true,
    Bool.not_eq_true', decide_eq_true_eq]
  constructor
  · rintro ⟨h1, h2⟩
    refine ⟨fun hc => ?_, h2⟩
    rcases h1 with h1 | h1
    · rw [hc] at h1; cases h1
    · exact h1
  · rintro ⟨h1, h2⟩
    refine ⟨?_, h2⟩
    by_cases hc : e.computable = true
    · exact Or.inr (h1 hc)
    · exact Or.inl (by simpa using hc)

/-- Statewise facts about a whole run of progress callbacks. -/
lemma runProgress_strong (l : List (Int × Int)) : ∀ (s : ProgressSt),
    (∀ x ∈ l, 0 ≤ x.1) → (∀ x ∈ l, x.2 = -1 ∨ 0 ≤ x.2) →
    (s.expected_pexe_size = -1 ∨ 0 ≤ s.expected_pexe_size) →
    s.pexe_bytes_compiled ≤ (runProgress s l).1.pexe_bytes_compiled ∧
    (∀ e ∈ (runProgress s l).2, s.pexe_bytes_compiled ≤ e.bytesCompiled ∧
      (e.computable = true → e.bytesCompiled ≤ e.bytesTotal)) ∧
    eventsMonotone (runProgress s l).2 = true ∧
    eventsWithinTotal (runProgress s l).2 = true := by
  induction l with
  | nil =>
    intro s _ _ _
    refine ⟨le_refl _, by simp [runProgress], rfl, rfl⟩
  | cons x rest ih =>
    obtain ⟨inc, dt⟩ := x
    intro s hinc hdt hexp
    have hinc0 : 0 ≤ inc := hinc (inc, dt) (by simp)
    have hdt0 : dt = -1 ∨ 0 ≤ dt := hdt (inc, dt) (by simp)
    have hexp2 := bitcodeGotCompiledState_expected s inc dt hdt0 hexp
    rw [← bitcodeGotCompiled_fst] at hexp2
    obtain ⟨i1, i2, i3, i4⟩ := ih (bitcodeGotCompiled s inc dt).1
      (fun y hy => hinc y (by simp [hy])) (fun y hy => hdt y (by simp [hy])) hexp2
    have hstep : (bitcodeGotCompiled s inc dt).1.pexe_bytes_compiled =
        s.pexe_bytes_compiled + inc := by
      rw [bitcodeGotCompiled_fst]; exact bitcodeGotCompiledState_compiled s inc dt
    simp only [runProgress]
    cases hev : (bitcodeGotCompiled s inc dt).2 with
    | none =>
      refine ⟨by omega, ?_, by simpa using i3, by simpa using i4⟩
      intro e he
      simp only [hev, Option.toList_none, List.nil_append] at he
      obtain ⟨m1, m2⟩ := i2 e he
      exact ⟨by omega, m2⟩
    | some e0 =>
      obtain ⟨v1, v2, v3⟩ := bitcodeGotCompiled_event s inc dt e0 hev
      have he0total : e0.computable = true → e0.bytesCompiled ≤ e0.bytesTotal := by
        intro hc
        obtain ⟨hk, hd⟩ := v3 hc
        have hk0 : 0 ≤ (bitcodeGotCompiledState s inc dt).expected_pexe_size := by
          rcases (by rw [← bitcodeGotCompiled_fst]; exact hexp2 :
              (bitcodeGotCompiledState s inc dt).expected_pexe_size = -1 ∨
                0 ≤ (bitcodeGotCompiledState s inc dt).expected_pexe_size) with h | h
          · exfalso
            have : expectedProgressKnown (bitcodeGotCompiledState s inc dt) = false := by
              simp [expectedProgressKnown, h]
            rw [this] at hk; cases hk
          · exact h
        have := not_delay_le (bitcodeGotCompiledState s inc dt) hk0 hd
        rw [v1, v2]
        rw [bitcodeGotCompiledState_compiled] at this
        omega
      refine ⟨by omega, ?_, ?_, ?_⟩
      · intro e he
        simp only [hev, Option.toList_some, List.cons_append, List.mem_cons] at he
        rcases he with rfl | he
        · exact ⟨by omega, he0total⟩
        · obtain ⟨m1, m2⟩ := i2 e he
          exact ⟨by omega, m2⟩
      · simp only [hev, Option.toList_some, List.cons_append, List.nil_append]
        refine eventsMonotone_cons e0 _ (fun y hy => ?_) i3
        obtain ⟨m1, _⟩ := i2 y hy
        omega
      · simp only [hev, Option.toList_some, List.cons_append, List.nil_append]
        rw [eventsWithinTotal_cons]
        exact ⟨he0total, i4⟩

/-- C7: once the expected total size is known, progress events near
end-of-stream are withheld by `BitcodeGotCompiled` (no event when the
should-delay predicate holds); in particular `BitcodeGotCompiled` never
emits the final length-computable event with `bytesCompiled` equal to the
(positive) expected total — that event is emitted by the success path of
`TranslateFinished`, after the worker confirms completion. -/
theorem c7_final_event_only_after_translate_finished (s : ProgressSt) (inc dt : Int) :
    (expectedProgressKnown (bitcodeGotCompiled s inc dt).1 = true →
      shouldDelayProgressEvent (bitcodeGotCompiled s inc dt).1 = true →
      (bitcodeGotCompiled s inc dt).2 = none) ∧
    (0 < (bitcodeGotCompiled s inc dt).1.expected_pexe_size →
      (bitcodeGotCompiled s inc dt).2 ≠
        some ⟨true, (bitcodeGotCompiled s inc dt).1.expected_pexe_size,
              (bitcodeGotCompiled s inc dt).1.expected_pexe_size⟩) ∧
    (expectedProgressKnown s = true →
      translateFinishedProgress s =
        ({ s with pexe_bytes_compiled := s.expected_pexe_size },
         some ⟨true, s.expected_pexe_size, s.expected_pexe_size⟩)) := by
  refine ⟨?_, ?_, ?_⟩
  · intro hk hd
    rw [bitcodeGotCompiled_fst] at hk hd
    rw [bitcodeGotCompiled, if_pos hk, if_neg (by simp [hd])]
  · intro hpos he
    rw [bitcodeGotCompiled_fst] at hpos
    obtain ⟨v1, v2, v3⟩ := bitcodeGotCompiled_event s inc dt _ he
    obtain ⟨hk, hd⟩ := v3 rfl
    have hsc := bitcodeGotCompiledState_compiled s inc dt
    have hdelay : ¬ ((bitcodeGotCompiledState s inc dt).expected_pexe_size -
        (bitcodeGotCompiledState s inc dt).pexe_bytes_compiled) * 100 <
          5 * (bitcodeGotCompiledState s inc dt).expected_pexe_size := by
      simpa [shouldDelayProgressEvent] using hd
    simp only [bitcodeGotCompiled_fst] at v1
    omega
  · intro hk
    rw [translateFinishedProgress, if_pos hk]

theorem c7_final_event_only_after_translate_finished_witness :
    (bitcodeGotCompiled ⟨95, 100⟩ 5 (-1)).2 = none ∧
    ((bitcodeGotCompiled ⟨95, 100⟩ 5 (-1)).2 ≠
      some ⟨true, (bitcodeGotCompiled ⟨95, 100⟩ 5 (-1)).1.expected_pexe_size,
            (bitcodeGotCompiled ⟨95, 100⟩ 5 (-1)).1.expected_pexe_size⟩) ∧
    translateFinishedProgress ⟨95, 100⟩ = (⟨100, 100⟩, some ⟨true, 100, 100⟩) :=
  ⟨(c7_final_event_only_after_translate_finished ⟨95, 100⟩ 5 (-1)).1
      (by decide) (by decide),
   (c7_final_event_only_after_translate_finished ⟨95, 100⟩ 5 (-1)).2.1 (by decide),
   (c7_final_event_only_after_translate_finished ⟨95, 100⟩ 5 (-1)).2.2 (by decide)⟩

/-- C8: over any sequence of compile-progress callbacks with non-negative
byte increments (and well-formed downloader totals), the `bytesCompiled`
reported by the emitted progress events is non-decreasing, and no emitted
length-computable event (the expected total being known is what makes an
event computable) reports `bytesCompiled` greater than `bytesTotal`. -/
theorem c8_progress_monotone_and_bounded (s : ProgressSt) (l : List (Int × Int))
    (hinc : ∀ x ∈ l, 0 ≤ x.1) (hdt : ∀ x ∈ l, x.2 = -1 ∨ 0 ≤ x.2)
    (hexp : s.expected_pexe_size = -1 ∨ 0 ≤ s.expected_pexe_size) :
    eventsMonotone (runProgress s l).2 = true ∧
    eventsWithinTotal (runProgress s l).2 = true :=
  ⟨(runProgress_strong l s hinc hdt hexp).2.2.1,
   (runProgress_strong l s hinc hdt hexp).2.2.2⟩

theorem c8_progress_monotone_and_bounded_witness :
    eventsMonotone (runProgress ⟨0, -1⟩ [(3, 10), (4, 10), (5, 10)]).2 = true ∧
    eventsWithinTotal (runProgress ⟨0, -1⟩ [(3, 10), (4, 10), (5, 10)]).2 = true :=
  c8_progress_monotone_and_bounded ⟨0, -1⟩ [(3, 10), (4, 10), (5, 10)]
    (by decide) (by decide) (by decide)

/-! ### Driver lemmas and claims C6, C9 -/

lemma append_ne_empty_left (v u : String) (h : v ≠ "") : v ++ u ≠ "" := by
  intro hc
  apply h
  have hd : (v ++ u).data = [] := congrArg String.data hc
  rw [String.data_append] at hd
  rcases List.append_eq_nil.mp hd with ⟨h1, _⟩
  cases v
  simp_all

lemma filter_isNotify_copyActs (evs : List CopyEv) :
    (evs.map copyEvToActs).filter isNotifyAct = [] := by
  induction evs with
  | nil => rfl
  | cons e rest ih => cases e <;> simp [copyEvToActs, isNotifyAct, ih]

/-- C6: for every request with caching disabled — the context is
off-the-record, or the response headers carry cache-control no-store or
lack cache validators — the success-path pipeline performs no cache-store
file operation (no cache file open, write, rename, or delete), and still
delivers to the caller exactly one completion carrying the translated
native executable's read handle, positioned at the start. -/
theorem c6_disabled_caching_no_cache_ops (cfg : Cfg) (oracle : Nat → Int) (fuel : Nat)
    (h : cachingDisabled cfg) :
    (runPipeline cfg oracle fuel).filter isCacheFileOp = [] ∧
    (runPipeline cfg oracle fuel).filter isNotifyAct =
      [Act.notify PP_OK (some ⟨cfg.nexeBytes, 0⟩)] := by
  by_cases hotr : cfg.offTheRecord = true
  · by_cases hexp : cfg.expectedPexeSize = -1 <;>
      simp [runPipeline, resourcesDidLoadD, openBitcodeStreamD, bitcodeStreamDidOpenD,
        cachedFileDidOpenD, translateFinishedD, nexeReadDidOpenD, hasCacheKey,
        initDriverSt, hotr, hexp, PP_ERROR_FAILED, PP_OK, isCacheFileOp, isNotifyAct,
        fileSystemDidOpen, List.filter_append]
  · have hd : (cfg.headersNoStore || cfg.headersValidators = "") = true := by
      rcases h with h | h | h
      · exact absurd h hotr
      · simp [h]
      · simp [h]
    by_cases hexp : cfg.expectedPexeSize = -1 <;>
      simp [runPipeline, resourcesDidLoadD, openBitcodeStreamD, bitcodeStreamDidOpenD,
        cachedFileDidOpenD, translateFinishedD, nexeReadDidOpenD, hasCacheKey,
        initDriverSt, hotr, hd, hexp, PP_ERROR_FAILED, PP_OK, isCacheFileOp, isNotifyAct,
        fileSystemDidOpen, List.filter_append]

theorem c6_disabled_caching_no_cache_ops_witness :
    (runPipeline
        { offTheRecord := true, headersNoStore := false, headersValidators := "abc",
          url := "u", cacheHit := false, cachedBytes := [], nexeBytes := [4, 5],
          posAfterTranslate := 7, expectedPexeSize := 2 } (fun _ => 1) 3).filter
      isCacheFileOp = [] ∧
    (runPipeline
        { offTheRecord := true, headersNoStore := false, headersValidators := "abc",
          url := "u", cacheHit := false, cachedBytes := [], nexeBytes := [4, 5],
          posAfterTranslate := 7, expectedPexeSize := 2 } (fun _ => 1) 3).filter
      isNotifyAct = [Act.notify PP_OK (some ⟨[4, 5], 0⟩)] :=
  c6_disabled_caching_no_cache_ops
    { offTheRecord := true, headersNoStore := false, headersValidators := "abc",
      url := "u", cacheHit := false, cachedBytes := [], nexeBytes := [4, 5],
      posAfterTranslate := 7, expectedPexeSize := 2 } (fun _ => 1) 3 (Or.inl rfl)

/-- C9: on the success (`Done`) path of any request — caching disabled,
cache hit, or cache miss with every copy write completing at least one
byte — the caller's completion callback is invoked exactly once, with
`PP_OK`, carrying a read handle positioned at the start of the resulting
native-executable file (the temp file's position having been `Reset()` by
`TranslateFinished`, and a cache file being freshly opened for read). -/
theorem c9_done_notifies_once_at_start (cfg : Cfg) (oracle : Nat → Int) (fuel : Nat)
    (hor : ∀ k, 1 ≤ oracle k) (hfuel : cfg.nexeBytes.length ≤ fuel) :
    notifyHandleAtStart (runPipeline cfg oracle fuel) = true := by
  obtain ⟨q1, q2, q3, _⟩ := copyLoop_inv oracle hor fuel
    { src := cfg.nexeBytes, pos := 0, cache := [], writeCount := 0, events := [] } 0
    (by simp) (by simp) (by simpa using hfuel)
  by_cases hotr : cfg.offTheRecord = true
  · by_cases hexp : cfg.expectedPexeSize = -1 <;>
      simp [runPipeline, resourcesDidLoadD, openBitcodeStreamD, bitcodeStreamDidOpenD,
        cachedFileDidOpenD, translateFinishedD, nexeReadDidOpenD, hasCacheKey,
        initDriverSt, hotr, hexp, PP_ERROR_FAILED, PP_OK, isNotifyAct,
        notifyHandleAtStart, fileSystemDidOpen, List.filter_append]
  · by_cases hns : (cfg.headersNoStore || cfg.headersValidators = "") = true
    · by_cases hexp : cfg.expectedPexeSize = -1 <;>
        simp [runPipeline, resourcesDidLoadD, openBitcodeStreamD, bitcodeStreamDidOpenD,
          cachedFileDidOpenD, translateFinishedD, nexeReadDidOpenD, hasCacheKey,
          initDriverSt, hotr, hns, hexp, PP_ERROR_FAILED, PP_OK, isNotifyAct,
          notifyHandleAtStart, fileSystemDidOpen, List.filter_append]
    · have hns2 : (cfg.headersNoStore || cfg.headersValidators = "") = false := by
        simpa using hns
      have hv : cfg.headersValidators ≠ "" := by
        simp only [Bool.or_eq_false_iff, decide_eq_false_iff_not] at hns2
        exact hns2.2
      have hkey : hasCacheKey (cfg.headersValidators ++ cfg.url) = true := by
        simp only [hasCacheKey, ne_eq, decide_eq_true_eq]
        exact append_ne_empty_left _ _ hv
      by_cases hhit : cfg.cacheHit = true
      · simp [runPipeline, resourcesDidLoadD, openBitcodeStreamD, bitcodeStreamDidOpenD,
          cachedFileDidOpenD, nexeReadDidOpenD, initDriverSt, hotr, hns2, hhit,
          PP_ERROR_FAILED, PP_OK, isNotifyAct, notifyHandleAtStart,
          fileSystemDidOpen, List.filter_append]
      · have hhit2 : cfg.cacheHit = false := by simpa using hhit
        have hne : ¬(cfg.headersValidators ++ cfg.url = "") :=
          append_ne_empty_left _ _ hv
        by_cases hexp : cfg.expectedPexeSize = -1 <;>
          simp [runPipeline, resourcesDidLoadD, openBitcodeStreamD, bitcodeStreamDidOpenD,
            cachedFileDidOpenD, translateFinishedD, nexeReadDidOpenD, hasCacheKey,
            initDriverSt, hotr, hns2, hhit2, hexp, hkey, hne, PP_ERROR_FAILED, PP_OK,
            isNotifyAct, notifyHandleAtStart, fileSystemDidOpen, List.filter_append,
            cachedNexeOpenedForWriteD, copyNexeToCache, q1, nexeWasCopiedToCacheD,
            nexeWasCopiedToCache, nexeFileWasRenamedD, nexeFileWasRenamed,
            filter_isNotify_copyActs]

theorem c9_done_notifies_once_at_start_witness :
    notifyHandleAtStart (runPipeline
      { offTheRecord := false, headersNoStore := false, headersValidators := "abc",
        url := "u", cacheHit := false, cachedBytes := [], nexeBytes := [4, 5],
        posAfterTranslate := 7, expectedPexeSize := 2 } (fun _ => 1) 3) = true :=
  c9_done_notifies_once_at_start
    { offTheRecord := false, headersNoStore := false, headersValidators := "abc",
      url := "u", cacheHit := false, cachedBytes := [], nexeBytes := [4, 5],
      posAfterTranslate := 7, expectedPexeSize := 2 } (fun _ => 1) 3
    (fun _ => by norm_num) (by norm_num)

end Pnacl
